import Mathlib

/-!
Verification of the usage-anomaly aggregation engine of the `limiter`
repository (`utils/check_usage.py`): subnet classification of IP strings,
per-account IP-occurrence filtering, report aggregation and sorting, message
chunking for the notification transport, the chunk send loop, and limit
enforcement (`check_users_usage`).

Python strings are modelled as `List Char` (aliased `Str`); Python integers
are unbounded, so `Nat`/`Int` model them exactly.  The IP-parsing functions
follow the CPython `ipaddress` module (Python ≥ 3.9.5 semantics, the
interpreter family required by the repository's `dict[str, UserType]`
annotations): `IPv4Address` rejects leading-zero octets, `IPv6Address`
supports `::` compression, an embedded IPv4 suffix and a `%scope` suffix,
and `str()` of an `IPv6Address` produces the RFC-5952-style compressed
lowercase form.
-/

/-- Python `str` modelled as a list of characters. -/
abbrev Str := List Char

/-- Python `str.split(sep)` for a one-character separator.  Matches Python's
semantics: the result always has exactly one more element than the number of
separator occurrences, so `''.split('.') = ['']`. -/
def splitChar (sep : Char) : Str → List Str
  | [] => [[]]
  | c :: cs =>
    if c = sep then [] :: splitChar sep cs
    else
      match splitChar sep cs with
      | [] => [[c]]
      | p :: ps => (c :: p) :: ps

/-- Joining with a one-character separator (Python `sep.join`), the inverse
of `splitChar`. -/
def joinSep (sep : Char) : List Str → Str
  | [] => []
  | [p] => p
  | p :: ps => p ++ sep :: joinSep sep (ps)

/-- Value of a decimal digit character. -/
def dval? (c : Char) : Option Nat :=
  if c = '0' then some 0
  else if c = '1' then some 1
  else if c = '2' then some 2
  else if c = '3' then some 3
  else if c = '4' then some 4
  else if c = '5' then some 5
  else if c = '6' then some 6
  else if c = '7' then some 7
  else if c = '8' then some 8
  else if c = '9' then some 9
  else none

/-- Left-to-right accumulation of a decimal numeral (Python `int(s)` on an
all-digit string); `none` as soon as a non-digit appears. -/
def parseDigitsAux (acc : Nat) : Str → Option Nat
  | [] => some acc
  | c :: cs =>
    match dval? c with
    | some d => parseDigitsAux (10 * acc + d) cs
    | none => none

/-- CPython `IPv4Address._parse_octet` (Python ≥ 3.9.5): an octet is a
non-empty all-decimal string of at most 3 characters, with no leading zero
(unless it is exactly `"0"`), of value at most 255. -/
def parseOctet (l : Str) : Option Nat :=
  match l, parseDigitsAux 0 l with
  | [], _ => none
  | _, none => none
  | _, some n =>
    if 3 < l.length then none
    else if 255 < n then none
    else if l.headI = '0' ∧ 1 < l.length then none
    else some n

/-- CPython `IPv4Address` string parsing: exactly four `.`-separated octets,
each accepted by `parseOctet`.  Returns the four octet values. -/
def parseIPv4 (s : Str) : Option (Nat × Nat × Nat × Nat) :=
  match splitChar '.' s with
  | [p1, p2, p3, p4] =>
    match parseOctet p1, parseOctet p2, parseOctet p3, parseOctet p4 with
    | some a, some b, some c, some d => some (a, b, c, d)
    | _, _, _, _ => none
  | _ => none

/-- Value of a hexadecimal digit character. -/
def hval? (c : Char) : Option Nat :=
  if c = '0' then some 0
  else if c = '1' then some 1
  else if c = '2' then some 2
  else if c = '3' then some 3
  else if c = '4' then some 4
  else if c = '5' then some 5
  else if c = '6' then some 6
  else if c = '7' then some 7
  else if c = '8' then some 8
  else if c = '9' then some 9
  else if c = 'a' then some 10
  else if c = 'b' then some 11
  else if c = 'c' then some 12
  else if c = 'd' then some 13
  else if c = 'e' then some 14
  else if c = 'f' then some 15
  else if c = 'A' then some 10
  else if c = 'B' then some 11
  else if c = 'C' then some 12
  else if c = 'D' then some 13
  else if c = 'E' then some 14
  else if c = 'F' then some 15
  else none

/-- Left-to-right accumulation of a hexadecimal numeral. -/
def parseHexAux (acc : Nat) : Str → Option Nat
  | [] => some acc
  | c :: cs =>
    match hval? c with
    | some d => parseHexAux (16 * acc + d) cs
    | none => none

/-- CPython `IPv6Address._parse_hextet`: a non-empty all-hex string of at
most 4 characters (its value is then automatically below 2^16). -/
def parseHextet (l : Str) : Option Nat :=
  match l, parseHexAux 0 l with
  | [], _ => none
  | _, none => none
  | _, some n => if 4 < l.length then none else some n

/-- Fold a list of hextet strings into the integer they denote
(each hextet contributes 16 bits, most significant first), failing if any
hextet is invalid.  Models the accumulation loops of
`IPv6Address._ip_int_from_string`. -/
def hextetsVal (parts : List Str) : Option Nat :=
  parts.foldl
    (fun acc p =>
      match acc, parseHextet p with
      | some a, some h => some (a * 65536 + h)
      | _, _ => none)
    (some 0)

/-- CPython `IPv6Address._ip_int_from_string` (without the scope id):
split on `':'`; at least 3 parts; an IPv4-style last part is replaced by two
hextets; at most 9 parts; at most one empty part strictly inside (the `::`);
a leading/trailing empty part is only allowed as part of a leading/trailing
`::`; with a `::` present at least one zero group must actually be skipped,
otherwise exactly 8 parts are required. -/
def parseIPv6NoScope (s : Str) : Option Nat :=
  if s = [] then none
  else
    let parts0 := splitChar ':' s
    if parts0.length < 3 then none
    else
      let withV4 : Option (List Str) :=
        if '.' ∈ parts0.getLastD [] then
          match parseIPv4 (parts0.getLastD []) with
          | some (a, b, c, d) =>
            some (parts0.dropLast ++
              [Nat.toDigits 16 (a * 256 + b), Nat.toDigits 16 (c * 256 + d)])
          | none => none
        else some parts0
      match withV4 with
      | none => none
      | some parts =>
        if 9 < parts.length then none
        else
          let n := parts.length
          let innerEmpties :=
            (((List.range n).drop 1).dropLast).filter (fun i => parts.getD i ['*'] = [])
          match innerEmpties with
          | [] =>
            if n ≠ 8 then none
            else if parts.getD 0 ['*'] = [] then none
            else if parts.getD (n - 1) ['*'] = [] then none
            else hextetsVal parts
          | [i] =>
            let hi := if parts.getD 0 ['*'] = [] then i - 1 else i
            if parts.getD 0 ['*'] = [] ∧ hi ≠ 0 then none
            else
              let lo0 := n - i - 1
              let lo := if parts.getD (n - 1) ['*'] = [] then lo0 - 1 else lo0
              if parts.getD (n - 1) ['*'] = [] ∧ lo ≠ 0 then none
              else if 8 ≤ hi + lo then none
              else
                match hextetsVal (parts.take hi), hextetsVal ((parts.drop (n - lo)).take lo) with
                | some hv, some lv => some (hv * 65536 ^ (8 - hi) + lv)
                | _, _ => none
          | _ => none

/-- Python `str.partition('%')`: the text before the first `'%'`, and the
text after it (`none` when there is no `'%'`). -/
def breakAtPercent : Str → Str × Option Str
  | [] => ([], none)
  | c :: cs =>
    if c = '%' then ([], some cs)
    else
      let r := breakAtPercent cs
      (c :: r.1, r.2)

/-- CPython `IPv6Address` string parsing including the `%scope_id` suffix
(`_split_scope_id`): the scope, when present, must be non-empty and contain
no further `'%'`. -/
def parseIPv6 (s : Str) : Option (Nat × Option Str) :=
  match breakAtPercent s with
  | (addr, none) => (parseIPv6NoScope addr).map (fun n => (n, none))
  | (addr, some scope) =>
    if scope = [] ∨ '%' ∈ scope then none
    else (parseIPv6NoScope addr).map (fun n => (n, some scope))

/-- The eight 16-bit groups of a 128-bit address value, each rendered as a
lowercase hex numeral without leading zeros (Python `'%x'`), most
significant first.  Models the hextet construction in
`IPv6Address._string_from_ip_int`. -/
def hextetsOf (ip : Nat) : List Str :=
  (List.range 8).map (fun k => Nat.toDigits 16 (ip / 65536 ^ (7 - k) % 65536))

/-- The scan of CPython `_compress_hextets`: returns the start and length of
the first longest run of `"0"` groups (the best run is only replaced when a
strictly longer one is found). -/
def bestRunAux : List Str → Nat → Nat → Nat → Nat → Nat → Nat × Nat
  | [], _, bs, bl, _, _ => (bs, bl)
  | h :: t, idx, bs, bl, cs, cl =>
    if h = ['0'] then
      let cs2 := if cl = 0 then idx else cs
      let cl2 := cl + 1
      if bl < cl2 then bestRunAux t (idx + 1) cs2 cl2 cs2 cl2
      else bestRunAux t (idx + 1) bs bl cs2 cl2
    else bestRunAux t (idx + 1) bs bl 0 0

/-- Start and length of the first longest run of zero hextets. -/
def bestRun (hx : List Str) : Nat × Nat := bestRunAux hx 0 0 0 0 0

/-- CPython `_compress_hextets`: replace the first longest run of two or
more zero groups by an empty group (which `joinSep ':'` turns into `::`),
adding an extra empty group when the run touches either end. -/
def compressHextets (hx : List Str) : List Str :=
  let bsbl := bestRun hx
  let bs := bsbl.1
  let bl := bsbl.2
  if bl ≤ 1 then hx
  else
    let e := bs + bl
    let hx2 := if e = hx.length then hx ++ [[]] else hx
    let hx3 := hx2.take bs ++ [[]] ++ hx2.drop e
    if bs = 0 then [] :: hx3 else hx3

/-- CPython `str(IPv6Address(...))`: the compressed lowercase form, with the
scope id appended after `'%'` when present. -/
def ipv6Str (ip : Nat) (scope : Option Str) : Str :=
  joinSep ':' (compressHextets (hextetsOf ip)) ++
    (match scope with
     | none => []
     | some z => '%' :: z)

/-- The per-IP subnet classifier: the loop body of `group_ips_by_subnet`
(`utils/check_usage.py` lines 32-55).  `ipaddress.ip_address` tries IPv4
first, then IPv6.  For an IPv4 address `a.b.c.d` the source computes
`ip_network(f"{ip}/24", strict=False).network_address.exploded` — the
decimal rendering `a.b.c.0` of the /24 network — then drops the text after
the last `'.'` and appends `"x"`, so the key is `a.b.c.x` rendered from the
parsed octet values.  For an IPv6 address the key is `str(ip_obj)`, the
canonical compressed form.  For unparsable input (ValueError) the key is the
input string itself. -/
def subnetKey (ip : Str) : Str :=
  match parseIPv4 ip with
  | some (a, b, c, _) =>
    Nat.toDigits 10 a ++ '.' :: Nat.toDigits 10 b ++ '.' :: Nat.toDigits 10 c ++ ['.', 'x']
  | none =>
    match parseIPv6 ip with
    | some (n, scope) => ipv6Str n scope
    | none => ip

/-- Deduplication keeping the first occurrence, the order in which a Python
`dict` built by insertion enumerates its keys.  `seen` accumulates the keys
already emitted. -/
def dedupFirst (seen : List Str) : List Str → List Str
  | [] => []
  | a :: l =>
    if a ∈ seen then dedupFirst seen l
    else a :: dedupFirst (a :: seen) l

/-- Model of `group_ips_by_subnet` (`utils/check_usage.py` lines 19-58): each IP is
mapped to its `subnetKey` and inserted into the `subnet_groups` dict (whose
values, the grouped IPs, are never used); `list(subnet_groups.keys())` is
the list of distinct keys in first-insertion order. -/
def group_ips_by_subnet (ipList : List Str) : List Str :=
  dedupFirst [] (ipList.map subnetKey)

/-- The occurrence filter of `check_ip_used` (`utils/check_usage.py`
lines 71-73): `ip_counts = Counter(data.ip)` and
`list({ip for ip in data.ip if ip_counts[ip] > 2})`.  This definition gives
the CONTENT of that Python set — the distinct IPs occurring more than
twice — listed in first-seen order as a canonical representative; the
actual iteration order of a Python `set` of strings is unspecified
(hash-seed dependent) and is modelled by `SetListing` below. -/
def retainedIps (ips : List Str) : List Str :=
  dedupFirst [] (ips.filter (fun x => decide (2 < ips.count x)))

/-- A possible materialisation of the Python set of retained IPs: any
duplicate-free enumeration of its elements, i.e. any permutation of
`retainedIps ips`.  Every run of the source program produces one such
listing; no particular order is guaranteed. -/
def SetListing (ips l : List Str) : Prop := l.Perm (retainedIps ips)

/-- Per-account cluster list (`subnet_ips` in the source, line 75), using
the canonical first-seen enumeration of the retained set. -/
def userClusters (ips : List Str) : List Str :=
  group_ips_by_subnet (retainedIps ips)

/-- The `all_users_log` dict as built by the loop of `check_ip_used`
(lines 69-76), before sorting: one entry per account of the snapshot, in
snapshot (dict-insertion) order. -/
def allUsersLog (snapshot : List (Str × List Str)) : List (Str × List Str) :=
  snapshot.map (fun p => (p.1, userClusters p.2))

/-- Model of `total_ips = sum(len(ips) for ips in all_users_log.values())`
(line 78), computed over the pre-sort log. -/
def totalIps (log : List (Str × List Str)) : Nat :=
  (log.map (fun p => p.2.length)).sum

/-- Insertion step of the stable descending sort: the new element `x`
(originally earlier than everything in the list) is placed before the first
entry whose cluster count does not exceed `x`'s, i.e. after exactly the
strictly larger entries. -/
def insertByDesc (x : Str × List Str) : List (Str × List Str) → List (Str × List Str)
  | [] => [x]
  | y :: ys =>
    if y.2.length ≤ x.2.length then x :: y :: ys
    else y :: insertByDesc x ys

/-- Model of `sorted(all_users_log.items(), key=lambda x: len(x[1]), reverse=True)`
(lines 79-85).  Python's sort is stable and `reverse=True` preserves the
original order of equal keys, so the result is the unique arrangement that
is sorted by descending cluster count with ties in original order; this
insertion sort produces exactly that arrangement (proved below). -/
def sortDesc : List (Str × List Str) → List (Str × List Str)
  | [] => []
  | x :: xs => insertByDesc x (sortDesc xs)

/-- The entries of the sorted log that are actually rendered into the
notification text (lines 88-92): accounts with an empty cluster list are
skipped, and accounts with exactly one cluster are skipped when
`SHOW_SINGLE_IP_USERS` is false. -/
def renderedEntries (log : List (Str × List Str)) (showSingle : Bool) :
    List (Str × List Str) :=
  log.filter (fun p => !p.2.isEmpty && (showSingle || p.2.length != 1))

/-- Python `sep.join(parts)` for a multi-character separator. -/
def joinStr (sep : Str) : List Str → Str
  | [] => []
  | [p] => p
  | p :: ps => p ++ sep ++ joinStr sep ps

/-- The rendered text of one account entry (lines 93-106). -/
def userMessage (email : Str) (ips : List Str) : Str :=
  if ips.length = 1 then
    "<code>".toList ++ email ++ "</code> with <code>".toList ++
      Nat.toDigits 10 ips.length ++ "</code> active ip: <code>".toList ++
      ips.headI ++ "</code>".toList
  else
    "<code>".toList ++ email ++ "</code> with <code>".toList ++
      Nat.toDigits 10 ips.length ++ "</code> active ips:\n- ".toList ++
      joinStr "\n- ".toList ips

/-- The `user_messages` list (lines 87-106). -/
def userMessages (log : List (Str × List Str)) (showSingle : Bool) : List Str :=
  (renderedEntries log showSingle).map (fun p => userMessage p.1 p.2)

/-- The `summary_message` text (line 109). -/
def summaryMessage (total : Nat) : Str :=
  "---------\nCount Of All Active IPs: <b>".toList ++
    Nat.toDigits 10 total ++ "</b>".toList

/-- The fold of lines 118-123: user messages joined by a blank line
(the first message is taken as-is). -/
def concatMessages (acc : Str) : List Str → Str
  | [] => acc
  | m :: ms => concatMessages (if acc.isEmpty then m else acc ++ '\n' :: '\n' :: m) ms

/-- The `complete_message` text right before chunking (lines 118-126): the joined
user messages followed by a blank line and the summary. -/
def buildComplete (msgs : List Str) (total : Nat) : Str :=
  concatMessages [] msgs ++ '\n' :: '\n' :: summaryMessage total

/-- Constant `MAX_MESSAGE_LENGTH = 3000` (line 113). -/
def MAX_MESSAGE_LENGTH : Nat := 3000

/-- Python `str.strip()` whitespace (the characters relevant here are
ASCII): space, tab, newline, carriage return, vertical tab, form feed. -/
def isPySpace (c : Char) : Bool :=
  c = ' ' || c = '\t' || c = '\n' || c = '\r' || c = '\x0B' || c = '\x0C'

/-- Python `str.strip()`. -/
def stripStr (s : Str) : Str :=
  ((s.dropWhile isPySpace).reverse.dropWhile isPySpace).reverse

/-- The split-point condition of lines 145/162/167:
`complete_message[i] == '\n' and i + 1 < total_length and
complete_message[i + 1] == '\n'` — position `i` starts a blank line
boundary between two account entries. -/
def isBoundary (msg : Str) (i : Nat) : Bool :=
  msg.getD i ' ' == '\n' && decide (i + 1 < msg.length) && msg.getD (i + 1) ' ' == '\n'

/-- The scan `for i in range(split_point, min(split_point + 200,
total_length))` (lines 144-147 etc.), searching for the first blank-line
boundary; returns `i + 2` for the first hit, `none` when the window holds
none.  `fuel` bounds the iteration count (200 at the call site). -/
def scanBlank (msg : Str) (stop : Nat) : Nat → Nat → Option Nat
  | _, 0 => none
  | i, fuel + 1 =>
    if i < stop then
      if isBoundary msg i then some (i + 2)
      else scanBlank msg stop (i + 1) fuel
    else none

/-- The adjusted split point: the first blank-line boundary in the
200-character window starting at `s`, or `s` itself as the fallback. -/
def findSplit (msg : Str) (s : Nat) : Nat :=
  (scanBlank msg (min (s + 200) msg.length) s 200).getD s

/-- Declarative description (from the spec's words) of the adjusted split
point `p` for a split starting at `s`: either `p = j + 2` for the first
blank-line boundary `j` inside the 200-character window starting at `s`, or
no boundary exists in the window and `p` falls back to `s` itself.  Used to
characterise `findSplit`. -/
def SplitsAt (msg : Str) (s p : Nat) : Prop :=
  (∃ j, s ≤ j ∧ j < min (s + 200) msg.length ∧ isBoundary msg j = true ∧
    (∀ k, s ≤ k → k < j → isBoundary msg k = false) ∧ p = j + 2) ∨
  ((∀ k, s ≤ k → k < min (s + 200) msg.length → isBoundary msg k = false) ∧
    p = s)

/-- The `message_chunks` list (lines 133-176): a single chunk when the text fits in
`MAX_MESSAGE_LENGTH`; otherwise two chunks (split near the half) when the
text fits in twice the maximum, else three chunks (split near the thirds);
each split point is adjusted forward to a blank-line boundary within a
200-character window, and each part is stripped. -/
def chunkMessage (msg : Str) : List Str :=
  if msg.length ≤ MAX_MESSAGE_LENGTH then [msg]
  else if msg.length ≤ MAX_MESSAGE_LENGTH * 2 then
    let p := findSplit msg (msg.length / 2)
    [stripStr (msg.take p), stripStr (msg.drop p)]
  else
    let part := msg.length / 3
    let p1 := findSplit msg part
    let p2 := findSplit msg (part * 2)
    [stripStr (msg.take p1), stripStr ((msg.drop p1).take (p2 - p1)),
      stripStr (msg.drop p2)]

/-- The part header `f"<b>📋 Part {i+1} of {len(message_chunks)}</b>\n\n"` (line 182),
with `i+1` already substituted into the first argument. -/
def partHeader (i n : Nat) : Str :=
  "<b>📋 Part ".toList ++ Nat.toDigits 10 i ++ " of ".toList ++
    Nat.toDigits 10 n ++ "</b>\n\n".toList

/-- The single-message header (line 184). -/
def singleHeader : Str := "<b>Active Users:</b>\n\n".toList

/-- The messages actually passed to `send_logs` (lines 179-184): each chunk
prefixed by its part header when there are several chunks, or by the plain
header when there is exactly one. -/
def emittedMessages (chunks : List Str) : List Str :=
  if 1 < chunks.length then
    chunks.enum.map (fun p => partHeader (p.1 + 1) chunks.length ++ p.2)
  else
    chunks.map (fun m => singleHeader ++ m)

/-- End-to-end model of the notification side of `check_ip_used`: from the
snapshot to the list of sent messages. -/
def checkIpUsedChunks (snapshot : List (Str × List Str)) (showSingle : Bool) :
    List Str :=
  let log := allUsersLog snapshot
  emittedMessages (chunkMessage
    (buildComplete (userMessages (sortDesc log) showSingle) (totalIps log)))

/-- The dict returned by `check_ip_used` (line 195): the sorted log. -/
def checkIpUsedReport (snapshot : List (Str × List Str)) : List (Str × List Str) :=
  sortDesc (allUsersLog snapshot)

/-- One iteration of the send loop (lines 187-193): `await send_logs(...)`
is wrapped in `try/except`, so a failing send is caught (and logged) and
the body completes normally, recording whether the send succeeded. -/
def sendChunkAttempt (send : Str → Except Str Unit) (m : Str) : Except Str Bool :=
  match send m with
  | Except.ok _ => Except.ok true
  | Except.error _ => Except.ok false

/-- The send loop over all chunks (lines 179-193), in an exception
semantics: an uncaught error in any iteration would abort the remaining
iterations (and propagate to the caller `check_users_usage`); the result
records, in order, the outcome of each attempted send. -/
def sendAllChunks (send : Str → Except Str Unit) : List Str → Except Str (List Bool)
  | [] => Except.ok []
  | m :: ms =>
    match sendChunkAttempt send m with
    | Except.error e => Except.error e
    | Except.ok r =>
      match sendAllChunks send ms with
      | Except.error e => Except.error e
      | Except.ok rs => Except.ok (r :: rs)

/-- The effective limit `int(special_limit.get(user_name, limit_number))`
(`check_users_usage`, line 209): the account's override limit when
present, the general limit otherwise. -/
def effectiveLimit (specialLimit : List (Str × Int)) (generalLimit : Int)
    (name : Str) : Int :=
  match specialLimit.lookup name with
  | some v => v
  | none => generalLimit

/-- The violation test of `check_users_usage` (lines 208-210): the account
is not in `EXCEPT_USERS` and its number of distinct cluster keys
(`len(set(user_ip))`) strictly exceeds its effective limit. -/
def violates (exceptUsers : List Str) (specialLimit : List (Str × Int))
    (generalLimit : Int) (name : Str) (ips : List Str) : Bool :=
  decide (name ∉ exceptUsers) &&
    decide (effectiveLimit specialLimit generalLimit name <
      ((dedupFirst [] ips).length : Int))

/-- The accounts for which `check_users_usage` emits a warning and a
disable call (its violation records), in report order. -/
def violationUsers (log : List (Str × List Str)) (exceptUsers : List Str)
    (specialLimit : List (Str × Int)) (generalLimit : Int) : List Str :=
  (log.filter (fun p => violates exceptUsers specialLimit generalLimit p.1 p.2)).map
    Prod.fst

/-! ### List utility lemmas -/

theorem splitChar_ne_nil (sep : Char) (s : Str) : splitChar sep s ≠ [] := by
  cases s with
  | nil => simp [splitChar]
  | cons c cs =>
    unfold splitChar
    by_cases h : c = sep
    · simp [h]
    · simp only [if_neg h]
      cases splitChar sep cs <;> simp

theorem joinSep_splitChar (sep : Char) (s : Str) :
    joinSep sep (splitChar sep s) = s := by
  induction s with
  | nil => rfl
  | cons c cs ih =>
    unfold splitChar
    by_cases h : c = sep
    · subst h
      simp only [if_pos rfl]
      cases hs : splitChar c cs with
      | nil => exact absurd hs (splitChar_ne_nil c cs)
      | cons p ps =>
        rw [hs] at ih
        simp [joinSep, ih]
    · simp only [if_neg h]
      cases hs : splitChar sep cs with
      | nil => exact absurd hs (splitChar_ne_nil sep cs)
      | cons p ps =>
        rw [hs] at ih
        cases ps with
        | nil => simp_all [joinSep]
        | cons q qs => simp_all [joinSep]

theorem splitChar_of_not_mem {sep : Char} {s : Str} (h : sep ∉ s) :
    splitChar sep s = [s] := by
  induction s with
  | nil => rfl
  | cons c cs ih =>
    unfold splitChar
    have hc : c ≠ sep := fun hcs => h (hcs ▸ List.mem_cons_self c cs)
    rw [if_neg (fun hcs => hc hcs)]
    rw [ih (fun hm => h (List.mem_cons_of_mem c hm))]

theorem breakAtPercent_of_not_mem {s : Str} (h : '%' ∉ s) :
    breakAtPercent s = (s, none) := by
  induction s with
  | nil => rfl
  | cons c cs ih =>
    unfold breakAtPercent
    have hc : c ≠ '%' := fun hcs => h (hcs ▸ List.mem_cons_self c cs)
    rw [if_neg hc, ih (fun hm => h (List.mem_cons_of_mem c hm))]

theorem mem_dedupFirst {x : Str} :
    ∀ (seen l : List Str), x ∈ dedupFirst seen l ↔ x ∈ l ∧ x ∉ seen := by
  intro seen l
  induction l generalizing seen with
  | nil => simp [dedupFirst]
  | cons a t ih =>
    unfold dedupFirst
    by_cases ha : a ∈ seen
    · rw [if_pos ha, ih]
      constructor
      · rintro ⟨hx, hs⟩
        exact ⟨List.mem_cons_of_mem _ hx, hs⟩
      · rintro ⟨hx, hs⟩
        rcases List.mem_cons.mp hx with rfl | hx
        · exact absurd ha hs
        · exact ⟨hx, hs⟩
    · rw [if_neg ha]
      constructor
      · intro hx
        rcases List.mem_cons.mp hx with rfl | hx
        · exact ⟨List.mem_cons_self _ _, ha⟩
        · have h2 := (ih (a :: seen)).mp hx
          exact ⟨List.mem_cons_of_mem _ h2.1,
            fun hs => h2.2 (List.mem_cons_of_mem _ hs)⟩
      · rintro ⟨hx, hs⟩
        rcases List.mem_cons.mp hx with rfl | hx
        · exact List.mem_cons_self _ _
        · by_cases hxa : x = a
          · subst hxa
            exact List.mem_cons_self _ _
          · refine List.mem_cons_of_mem _ ((ih (a :: seen)).mpr ⟨hx, ?_⟩)
            intro hm
            rcases List.mem_cons.mp hm with h1 | h1
            · exact hxa h1
            · exact hs h1

theorem nodup_dedupFirst : ∀ (seen l : List Str), (dedupFirst seen l).Nodup := by
  intro seen l
  induction l generalizing seen with
  | nil => simp [dedupFirst]
  | cons a t ih =>
    unfold dedupFirst
    by_cases ha : a ∈ seen
    · rw [if_pos ha]
      exact ih seen
    · rw [if_neg ha]
      refine List.Nodup.cons ?_ (ih (a :: seen))
      intro hmem
      exact ((mem_dedupFirst (a :: seen) t).mp hmem).2 (List.mem_cons_self a seen)

theorem toFinset_dedupFirst (l : List Str) :
    (dedupFirst [] l).toFinset = l.toFinset := by
  ext x
  simp [List.mem_toFinset, mem_dedupFirst]

theorem length_dedupFirst_eq_card (l : List Str) :
    (dedupFirst [] l).length = l.toFinset.card := by
  rw [← toFinset_dedupFirst]
  exact (List.toFinset_card_of_nodup (nodup_dedupFirst [] l)).symm

/-! ### Decimal numeral lemmas -/

theorem dval?_digitChar {c : Char} {d : Nat} (h : dval? c = some d) :
    Nat.digitChar d = c ∧ d < 10 := by
  unfold dval? at h
  split_ifs at h with h0 h1 h2 h3 h4 h5 h6 h7 h8 h9
  all_goals first
    | (injection h with h
       subst h
       subst_vars
       exact ⟨rfl, by decide⟩)

theorem dval?_char_ne {c : Char} (h : (dval? c).isSome) :
    c ≠ ':' ∧ c ≠ '.' ∧ c ≠ '%' := by
  unfold dval? at h
  split_ifs at h with h0 h1 h2 h3 h4 h5 h6 h7 h8 h9 <;> subst_vars <;> simp_all

theorem toDigitsCore10_small :
    ∀ (fuel n : Nat) (ds : List Char), 0 < fuel → n < 10 →
      Nat.toDigitsCore 10 fuel n ds = Nat.digitChar n :: ds := by
  intro fuel n ds hf hn
  cases fuel with
  | zero => omega
  | succ f =>
    unfold Nat.toDigitsCore
    simp [Nat.div_eq_of_lt hn, Nat.mod_eq_of_lt hn]

theorem toDigits10_one : ∀ m, m < 10 → Nat.toDigits 10 m = [Nat.digitChar m] := by
  intro m hm
  unfold Nat.toDigits
  exact toDigitsCore10_small (m + 1) m [] (by omega) hm

theorem toDigitsCore10_two :
    ∀ (fuel n : Nat) (ds : List Char), 1 < fuel → 10 ≤ n → n < 100 →
      Nat.toDigitsCore 10 fuel n ds =
        Nat.digitChar (n / 10) :: Nat.digitChar (n % 10) :: ds := by
  intro fuel n ds hf h10 h100
  cases fuel with
  | zero => omega
  | succ f =>
    unfold Nat.toDigitsCore
    have hne : n / 10 ≠ 0 := by omega
    rw [if_neg hne]
    exact toDigitsCore10_small f (n / 10) _ (by omega) (by omega)

theorem toDigits10_two :
    ∀ v, v < 100 → 10 ≤ v →
      Nat.toDigits 10 v = [Nat.digitChar (v / 10), Nat.digitChar (v % 10)] := by
  intro v h100 h10
  unfold Nat.toDigits
  exact toDigitsCore10_two (v + 1) v [] (by omega) h10 h100

theorem toDigits10_three :
    ∀ v, v < 1000 → 100 ≤ v →
      Nat.toDigits 10 v =
        [Nat.digitChar (v / 100), Nat.digitChar (v / 10 % 10), Nat.digitChar (v % 10)] := by
  intro v h1000 h100
  unfold Nat.toDigits
  cases hv : v + 1 with
  | zero => omega
  | succ f =>
    unfold Nat.toDigitsCore
    have hne : v / 10 ≠ 0 := by omega
    rw [if_neg hne]
    have h2 : Nat.toDigitsCore 10 f (v / 10) [Nat.digitChar (v % 10)] =
        Nat.digitChar (v / 10 / 10) :: Nat.digitChar (v / 10 % 10) ::
          [Nat.digitChar (v % 10)] :=
      toDigitsCore10_two f (v / 10) _ (by omega) (by omega) (by omega)
    rw [h2, Nat.div_div_eq_div_mul]

theorem parseDigitsAux_digits :
    ∀ (l : Str) (acc n : Nat), parseDigitsAux acc l = some n →
      ∀ c ∈ l, (dval? c).isSome := by
  intro l
  induction l with
  | nil => simp
  | cons c cs ih =>
    intro acc n h x hx
    unfold parseDigitsAux at h
    cases hd : dval? c with
    | none => rw [hd] at h; cases h
    | some d =>
      rw [hd] at h
      rcases List.mem_cons.mp hx with rfl | hx
      · simp [hd]
      · exact ih _ _ h x hx

theorem parseOctet_some_iff {l : Str} {n : Nat} :
    parseOctet l = some n ↔
      l ≠ [] ∧ parseDigitsAux 0 l = some n ∧ l.length ≤ 3 ∧ n ≤ 255 ∧
        ¬(l.headI = '0' ∧ 1 < l.length) := by
  cases l with
  | nil => simp [parseOctet]
  | cons c cs =>
    unfold parseOctet
    cases hp : parseDigitsAux 0 (c :: cs) with
    | none => simp [hp]
    | some m =>
      simp only [hp]
      split_ifs with h1 h2 h3 <;>
        simp_all <;> omega

theorem dval?_ne_zero_char {c : Char} {d : Nat} (h : dval? c = some d)
    (hc : c ≠ '0') : d ≠ 0 := by
  intro hd
  subst hd
  exact hc ((dval?_digitChar h).1.symm ▸ rfl)

theorem parseOctet_canon {l : Str} {n : Nat} (h : parseOctet l = some n) :
    n < 256 ∧ l = Nat.toDigits 10 n := by
  rw [parseOctet_some_iff] at h
  obtain ⟨hne, hp, hlen, hle, hlead⟩ := h
  match l, hne with
  | [c1], _ =>
    unfold parseDigitsAux at hp
    cases hd1 : dval? c1 with
    | none => rw [hd1] at hp; cases hp
    | some d1 =>
      rw [hd1] at hp
      unfold parseDigitsAux at hp
      injection hp with hp
      obtain ⟨hch1, hlt1⟩ := dval?_digitChar hd1
      have hn : n = d1 := by omega
      refine ⟨by omega, ?_⟩
      rw [hn, toDigits10_one d1 hlt1, hch1]
  | [c1, c2], _ =>
    unfold parseDigitsAux at hp
    cases hd1 : dval? c1 with
    | none => rw [hd1] at hp; cases hp
    | some d1 =>
      rw [hd1] at hp
      unfold parseDigitsAux at hp
      cases hd2 : dval? c2 with
      | none => rw [hd2] at hp; cases hp
      | some d2 =>
        rw [hd2] at hp
        unfold parseDigitsAux at hp
        injection hp with hp
        obtain ⟨hch1, hlt1⟩ := dval?_digitChar hd1
        obtain ⟨hch2, hlt2⟩ := dval?_digitChar hd2
        have hc1 : c1 ≠ '0' := by
          intro hc
          exact hlead ⟨by simp [hc], by simp⟩
        have hd10 : d1 ≠ 0 := dval?_ne_zero_char hd1 hc1
        have hn : n = 10 * d1 + d2 := by omega
        refine ⟨by omega, ?_⟩
        rw [toDigits10_two n (by omega) (by omega)]
        have e1 : n / 10 = d1 := by omega
        have e2 : n % 10 = d2 := by omega
        rw [e1, e2, hch1, hch2]
  | [c1, c2, c3], _ =>
    unfold parseDigitsAux at hp
    cases hd1 : dval? c1 with
    | none => rw [hd1] at hp; cases hp
    | some d1 =>
      rw [hd1] at hp
      unfold parseDigitsAux at hp
      cases hd2 : dval? c2 with
      | none => rw [hd2] at hp; cases hp
      | some d2 =>
        rw [hd2] at hp
        unfold parseDigitsAux at hp
        cases hd3 : dval? c3 with
        | none => rw [hd3] at hp; cases hp
        | some d3 =>
          rw [hd3] at hp
          unfold parseDigitsAux at hp
          injection hp with hp
          obtain ⟨hch1, hlt1⟩ := dval?_digitChar hd1
          obtain ⟨hch2, hlt2⟩ := dval?_digitChar hd2
          obtain ⟨hch3, hlt3⟩ := dval?_digitChar hd3
          have hc1 : c1 ≠ '0' := by
            intro hc
            exact hlead ⟨by simp [hc], by simp⟩
          have hd10 : d1 ≠ 0 := dval?_ne_zero_char hd1 hc1
          have hn : n = 100 * d1 + 10 * d2 + d3 := by omega
          refine ⟨by omega, ?_⟩
          rw [toDigits10_three n (by omega) (by omega)]
          have e1 : n / 100 = d1 := by omega
          have e2 : n / 10 % 10 = d2 := by omega
          have e3 : n % 10 = d3 := by omega
          rw [e1, e2, e3, hch1, hch2, hch3]
  | c1 :: c2 :: c3 :: c4 :: t, _ =>
    exfalso
    simp [List.length] at hlen

/-! ### IPv4 parse shape -/

theorem parseIPv4_parts {s : Str} {v : Nat × Nat × Nat × Nat}
    (h : parseIPv4 s = some v) :
    ∃ p1 p2 p3 p4, splitChar '.' s = [p1, p2, p3, p4] ∧
      parseOctet p1 = some v.1 ∧ parseOctet p2 = some v.2.1 ∧
      parseOctet p3 = some v.2.2.1 ∧ parseOctet p4 = some v.2.2.2 := by
  unfold parseIPv4 at h
  split at h
  · rename_i p1 p2 p3 p4 hsp
    split at h
    · rename_i a b c d h1 h2 h3 h4
      injection h with h
      subst h
      exact ⟨p1, p2, p3, p4, hsp, h1, h2, h3, h4⟩
    · cases h
  · cases h

theorem joinSep_four (sep : Char) (p1 p2 p3 p4 : Str) :
    joinSep sep [p1, p2, p3, p4] = p1 ++ sep :: (p2 ++ sep :: (p3 ++ sep :: p4)) := by
  simp [joinSep]

theorem parseIPv4_shape {s : Str} {a b c d : Nat}
    (h : parseIPv4 s = some (a, b, c, d)) :
    s = Nat.toDigits 10 a ++ '.' ::
        (Nat.toDigits 10 b ++ '.' :: (Nat.toDigits 10 c ++ '.' :: Nat.toDigits 10 d)) := by
  obtain ⟨p1, p2, p3, p4, hsp, h1, h2, h3, h4⟩ := parseIPv4_parts h
  have hs : s = joinSep '.' (splitChar '.' s) := (joinSep_splitChar '.' s).symm
  rw [hsp, joinSep_four] at hs
  rw [hs, (parseOctet_canon h1).2, (parseOctet_canon h2).2,
    (parseOctet_canon h3).2, (parseOctet_canon h4).2]

theorem parseIPv4_chars {s : Str} {v : Nat × Nat × Nat × Nat}
    (h : parseIPv4 s = some v) :
    ∀ ch ∈ s, (dval? ch).isSome ∨ ch = '.' := by
  obtain ⟨p1, p2, p3, p4, hsp, h1, h2, h3, h4⟩ := parseIPv4_parts h
  have hs : s = joinSep '.' (splitChar '.' s) := (joinSep_splitChar '.' s).symm
  rw [hsp, joinSep_four] at hs
  have hdig : ∀ p : Str, ∀ n : Nat, parseOctet p = some n →
      ∀ ch ∈ p, (dval? ch).isSome := by
    intro p n hp ch hch
    have := (parseOctet_some_iff.mp hp).2.1
    exact parseDigitsAux_digits p 0 n this ch hch
  intro ch hch
  rw [hs] at hch
  rcases List.mem_append.mp hch with hm | hm
  · exact Or.inl (hdig p1 _ h1 ch hm)
  · rcases List.mem_cons.mp hm with rfl | hm
    · exact Or.inr rfl
    · rcases List.mem_append.mp hm with hm | hm
      · exact Or.inl (hdig p2 _ h2 ch hm)
      · rcases List.mem_cons.mp hm with rfl | hm
        · exact Or.inr rfl
        · rcases List.mem_append.mp hm with hm | hm
          · exact Or.inl (hdig p3 _ h3 ch hm)
          · rcases List.mem_cons.mp hm with rfl | hm
            · exact Or.inr rfl
            · exact Or.inl (hdig p4 _ h4 ch hm)

theorem parseIPv6_of_parseIPv4 {s : Str} {v : Nat × Nat × Nat × Nat}
    (h : parseIPv4 s = some v) : parseIPv6 s = none := by
  have hch := parseIPv4_chars h
  have hpc : '%' ∉ s := by
    intro hm
    rcases hch '%' hm with hd | hd
    · exact (dval?_char_ne hd).2.2 rfl
    · exact absurd hd (by decide)
  have hcol : ':' ∉ s := by
    intro hm
    rcases hch ':' hm with hd | hd
    · exact (dval?_char_ne hd).1 rfl
    · exact absurd hd (by decide)
  have hns : parseIPv6NoScope s = none := by
    unfold parseIPv6NoScope
    by_cases hs : s = []
    · simp [hs]
    · rw [if_neg hs]
      simp [splitChar_of_not_mem hcol]
  unfold parseIPv6
  rw [breakAtPercent_of_not_mem hpc]
  simp [hns]

/-! ### Claims C1 and C6: the subnet classifier -/

/-- Claim C1: for every valid IPv4 dotted-decimal string `a.b.c.d` the
subnet classifier returns the cluster key `a.b.c.x` regardless of the value
of `d` (a string accepted by the IPv4 parser is exactly the decimal
rendering of its four octets, and the key is the rendering of the first
three octets followed by `.x`); for every string that fails to parse as an
IP address (IPv4 or IPv6), the classifier returns the original string
unchanged. -/
theorem claim_C1 (s : Str) (a b c d : Nat) :
    (parseIPv4 s = some (a, b, c, d) →
      s = Nat.toDigits 10 a ++ '.' ::
        (Nat.toDigits 10 b ++ '.' :: (Nat.toDigits 10 c ++ '.' :: Nat.toDigits 10 d)) ∧
      subnetKey s = Nat.toDigits 10 a ++ '.' ::
        (Nat.toDigits 10 b ++ '.' :: (Nat.toDigits 10 c ++ ['.', 'x']))) ∧
    (parseIPv4 s = none → parseIPv6 s = none → subnetKey s = s) := by
  constructor
  · intro h
    refine ⟨parseIPv4_shape h, ?_⟩
    unfold subnetKey
    rw [h]
    simp [List.append_assoc]
  · intro h4 h6
    unfold subnetKey
    rw [h4, h6]

/-- Witness for C1 at the concrete address `1.2.3.4`: the hypotheses of both
implications are satisfiable, and the classifier returns `1.2.3.x`. -/
theorem claim_C1_witness :
    parseIPv4 "1.2.3.4".toList = some (1, 2, 3, 4) ∧
      subnetKey "1.2.3.4".toList = Nat.toDigits 10 1 ++ '.' ::
        (Nat.toDigits 10 2 ++ '.' :: (Nat.toDigits 10 3 ++ ['.', 'x'])) ∧
      subnetKey "hello".toList = "hello".toList :=
  ⟨by decide,
   ((claim_C1 "1.2.3.4".toList 1 2 3 4).1 (by decide)).2,
   (claim_C1 "hello".toList 0 0 0 0).2 (by decide) (by decide)⟩

/-- Counterexample to claim C6 as stated: `2001:0db8::1` parses as an IPv6
address, yet the classifier does not return the input string itself — the
source returns `str(ip_obj)`, the canonical compressed form `2001:db8::1`,
which drops the leading zero of the second group. -/
theorem claim_C6_cex :
    (parseIPv6 "2001:0db8::1".toList).isSome = true ∧
      subnetKey "2001:0db8::1".toList ≠ "2001:0db8::1".toList := by
  constructor
  · decide
  · decide

/-- Claim C6 (amended): for every input string that parses as an IPv6
address, the subnet classifier returns the canonical string form
`str(ip_obj)` of the parsed address — the RFC-5952-style compressed
lowercase rendering (with any scope id re-attached) — rather than the input
string itself; no `/24`-style clustering is applied.  The result equals the
input exactly when the input is already in canonical form. -/
theorem claim_C6_amended (s : Str) (n : Nat) (sc : Option Str)
    (h : parseIPv6 s = some (n, sc)) : subnetKey s = ipv6Str n sc := by
  have h4 : parseIPv4 s = none := by
    cases hv : parseIPv4 s with
    | none => rfl
    | some v => rw [parseIPv6_of_parseIPv4 hv] at h; cases h
  unfold subnetKey
  rw [h4, h]

/-- Witness for the amended C6 at `2001:0db8::1` (non-canonical input,
canonicalised output) and `::1` (canonical input, returned unchanged). -/
theorem claim_C6_amended_witness :
    parseIPv6 "2001:0db8::1".toList =
      some (0x20010db8 * 65536 ^ 6 + 1, none) ∧
    subnetKey "2001:0db8::1".toList = ipv6Str (0x20010db8 * 65536 ^ 6 + 1) none ∧
    parseIPv6 "::1".toList = some (1, none) ∧
    subnetKey "::1".toList = ipv6Str 1 none ∧
    ipv6Str (0x20010db8 * 65536 ^ 6 + 1) none = "2001:db8::1".toList ∧
    ipv6Str 1 none = "::1".toList :=
  ⟨by decide,
   claim_C6_amended "2001:0db8::1".toList _ none (by decide),
   by decide,
   claim_C6_amended "::1".toList 1 none (by decide),
   by decide,
   by decide⟩

/-! ### Claims C2 and C5: the occurrence filter and the report order -/

/-- Claim C2: an IP occurring at most twice in an account's observation
sequence is not retained; every retained IP occurs strictly more than
twice; and erasing all occurrences of such a low-count IP changes neither
the retained set nor the account's cluster report — the IP contributes no
cluster key, directly or via its subnet. -/
theorem claim_C2 (ips : List Str) (ip : Str) (h : ips.count ip ≤ 2) :
    ip ∉ retainedIps ips ∧
    (∀ x ∈ retainedIps ips, 2 < ips.count x) ∧
    retainedIps (ips.filter (fun y => y != ip)) = retainedIps ips ∧
    userClusters (ips.filter (fun y => y != ip)) = userClusters ips := by
  have hmem : ∀ x, x ∈ retainedIps ips ↔ x ∈ ips ∧ 2 < ips.count x := by
    intro x
    unfold retainedIps
    rw [mem_dedupFirst, List.mem_filter]
    simp
  have hfilter : retainedIps (ips.filter (fun y => y != ip)) = retainedIps ips := by
    unfold retainedIps
    congr 1
    rw [List.filter_filter]
    refine List.filter_congr ?_
    intro a _
    by_cases ha : a = ip
    · subst ha
      simp only [bne_self_eq_false, Bool.and_false]
      have : ¬(2 < ips.count a) := by omega
      simp [this]
    · have hcnt : (ips.filter (fun y => y != ip)).count a = ips.count a :=
        List.count_filter (by simp [ha])
      rw [hcnt]
      simp [ha]
  refine ⟨?_, ?_, hfilter, ?_⟩
  · intro hm
    have := (hmem ip).mp hm
    omega
  · intro x hx
    exact ((hmem x).mp hx).2
  · unfold userClusters
    rw [hfilter]

/-- Witness for C2: in `[a, a, a, b, b]` the IP `b` occurs twice and is
absent from the retained set. -/
theorem claim_C2_witness :
    (["1.2.3.4".toList, "1.2.3.4".toList, "1.2.3.4".toList,
        "5.6.7.8".toList, "5.6.7.8".toList] : List Str).count "5.6.7.8".toList ≤ 2 ∧
    "5.6.7.8".toList ∉ retainedIps
      ["1.2.3.4".toList, "1.2.3.4".toList, "1.2.3.4".toList,
        "5.6.7.8".toList, "5.6.7.8".toList] :=
  ⟨by decide,
   (claim_C2 ["1.2.3.4".toList, "1.2.3.4".toList, "1.2.3.4".toList,
      "5.6.7.8".toList, "5.6.7.8".toList] "5.6.7.8".toList (by decide)).1⟩

/-- Counterexample to claim C5 as stated: the source materialises the
retained IPs as `list({...})`, a Python set whose iteration order is
unspecified; for the observation sequence `[1.1.1.1 ×3, 2.2.2.2 ×3]` the
listing `[2.2.2.2, 1.1.1.1]` is a legal enumeration of that set, and the
report built from it is not in first-seen discovery order. -/
theorem claim_C5_cex :
    SetListing
      ["1.1.1.1".toList, "1.1.1.1".toList, "1.1.1.1".toList,
        "2.2.2.2".toList, "2.2.2.2".toList, "2.2.2.2".toList]
      ["2.2.2.2".toList, "1.1.1.1".toList] ∧
    group_ips_by_subnet ["2.2.2.2".toList, "1.1.1.1".toList] ≠
      group_ips_by_subnet (retainedIps
        ["1.1.1.1".toList, "1.1.1.1".toList, "1.1.1.1".toList,
          "2.2.2.2".toList, "2.2.2.2".toList, "2.2.2.2".toList]) := by
  constructor
  · unfold SetListing
    decide
  · decide

/-- Claim C5 (amended): for every legal enumeration of the retained-IP set,
the account's report is duplicate-free and contains exactly the subnet keys
of the retained IPs, in the first-occurrence order of that enumeration;
since the enumeration order of the Python set is unspecified, first-seen
discovery order is not guaranteed. -/
theorem claim_C5_amended (ips l : List Str) (h : SetListing ips l) :
    (group_ips_by_subnet l).Nodup ∧
    (∀ k, k ∈ group_ips_by_subnet l ↔ ∃ x ∈ retainedIps ips, subnetKey x = k) := by
  refine ⟨nodup_dedupFirst [] _, ?_⟩
  intro k
  unfold group_ips_by_subnet
  rw [mem_dedupFirst]
  simp only [List.mem_map, List.not_mem_nil, not_false_iff, and_true]
  constructor
  · rintro ⟨x, hx, rfl⟩
    exact ⟨x, h.mem_iff.mp hx, rfl⟩
  · rintro ⟨x, hx, rfl⟩
    exact ⟨x, h.mem_iff.mpr hx, rfl⟩

/-- Witness for the amended C5: the canonical enumeration itself is a legal
set listing. -/
theorem claim_C5_amended_witness :
    SetListing ["1.1.1.1".toList, "1.1.1.1".toList, "1.1.1.1".toList]
      (retainedIps ["1.1.1.1".toList, "1.1.1.1".toList, "1.1.1.1".toList]) ∧
    (group_ips_by_subnet (retainedIps
      ["1.1.1.1".toList, "1.1.1.1".toList, "1.1.1.1".toList])).Nodup :=
  ⟨List.Perm.refl _,
   (claim_C5_amended ["1.1.1.1".toList, "1.1.1.1".toList, "1.1.1.1".toList]
      (retainedIps ["1.1.1.1".toList, "1.1.1.1".toList, "1.1.1.1".toList])
      (List.Perm.refl _)).1⟩

/-! ### Claim C3: the limit enforcer -/

/-- Claim C3: an account in the exemption set never produces a violation
record regardless of its cluster count; a non-exempt account violates if
and only if its number of distinct cluster keys (`len(set(user_ip))`, i.e.
the cardinality of the set of its keys) strictly exceeds its effective
limit, which is the override value when `SPECIAL_LIMIT` has an entry for
the account and the general limit otherwise. -/
theorem claim_C3 (ex : List Str) (sp : List (Str × Int)) (gl : Int)
    (name : Str) (ips : List Str) :
    (name ∈ ex → violates ex sp gl name ips = false) ∧
    (name ∉ ex →
      ((violates ex sp gl name ips = true ↔
          effectiveLimit sp gl name < (ips.toFinset.card : Int)) ∧
        (∀ v, sp.lookup name = some v → effectiveLimit sp gl name = v) ∧
        (sp.lookup name = none → effectiveLimit sp gl name = gl))) := by
  constructor
  · intro hmem
    unfold violates
    simp [hmem]
  · intro hmem
    refine ⟨?_, ?_, ?_⟩
    · unfold violates
      rw [length_dedupFirst_eq_card]
      simp [hmem]
    · intro v hv
      unfold effectiveLimit
      rw [hv]
    · intro hv
      unfold effectiveLimit
      rw [hv]

/-- Witness for C3: a non-exempt account with an override limit of 1 and
two distinct cluster keys violates. -/
theorem claim_C3_witness :
    "u".toList ∉ (["e".toList] : List Str) ∧
    (violates ["e".toList] [("u".toList, 1)] 5 "u".toList
        ["1.2.3.x".toList, "8.8.8.8".toList] = true ↔
      effectiveLimit [("u".toList, 1)] 5 "u".toList <
        ((["1.2.3.x".toList, "8.8.8.8".toList] : List Str).toFinset.card : Int)) :=
  ⟨by decide,
   ((claim_C3 ["e".toList] [("u".toList, 1)] 5 "u".toList
      ["1.2.3.x".toList, "8.8.8.8".toList]).2 (by decide)).1⟩

/-! ### Sorting lemmas and claim C7 -/

theorem insertByDesc_perm (x : Str × List Str) (l : List (Str × List Str)) :
    (insertByDesc x l).Perm (x :: l) := by
  induction l with
  | nil => exact List.Perm.refl _
  | cons y ys ih =>
    unfold insertByDesc
    by_cases hc : y.2.length ≤ x.2.length
    · rw [if_pos hc]
    · rw [if_neg hc]
      exact (ih.cons y).trans (List.Perm.swap x y ys)

theorem sortDesc_perm (l : List (Str × List Str)) : (sortDesc l).Perm l := by
  induction l with
  | nil => exact List.Perm.refl _
  | cons x xs ih =>
    unfold sortDesc
    exact (insertByDesc_perm x (sortDesc xs)).trans (ih.cons x)

theorem insertByDesc_pairwise (x : Str × List Str) (l : List (Str × List Str))
    (hl : l.Pairwise (fun p q => q.2.length ≤ p.2.length)) :
    (insertByDesc x l).Pairwise (fun p q => q.2.length ≤ p.2.length) := by
  induction l with
  | nil => simp [insertByDesc]
  | cons y ys ih =>
    rcases List.pairwise_cons.mp hl with ⟨hy, hys⟩
    unfold insertByDesc
    by_cases hc : y.2.length ≤ x.2.length
    · rw [if_pos hc]
      refine List.Pairwise.cons ?_ hl
      intro z hz
      rcases List.mem_cons.mp hz with rfl | hz
      · exact hc
      · exact le_trans (hy z hz) hc
    · rw [if_neg hc]
      refine List.Pairwise.cons ?_ (ih hys)
      intro z hz
      rcases List.mem_cons.mp ((insertByDesc_perm x ys).mem_iff.mp hz) with rfl | hz
      · omega
      · exact hy z hz

theorem sortDesc_sorted (l : List (Str × List Str)) :
    (sortDesc l).Pairwise (fun p q => q.2.length ≤ p.2.length) := by
  induction l with
  | nil => simp [sortDesc]
  | cons x xs ih =>
    unfold sortDesc
    exact insertByDesc_pairwise x (sortDesc xs) ih

theorem insertByDesc_filter (x : Str × List Str) (l : List (Str × List Str)) (n : Nat) :
    (insertByDesc x l).filter (fun p => p.2.length == n) =
      if x.2.length == n then x :: l.filter (fun p => p.2.length == n)
      else l.filter (fun p => p.2.length == n) := by
  induction l with
  | nil =>
    simp only [insertByDesc, List.filter]
    cases hb : x.2.length == n <;> simp_all
  | cons y ys ih =>
    unfold insertByDesc
    by_cases hc : y.2.length ≤ x.2.length
    · rw [if_pos hc, List.filter_cons]
    · rw [if_neg hc, List.filter_cons, ih, List.filter_cons]
      by_cases hy : y.2.length = n
      · by_cases hx : x.2.length = n
        · omega
        · simp [hy, hx]
      · by_cases hx : x.2.length = n
        · simp [hy, hx]
        · simp [hy, hx]

theorem sortDesc_stable (l : List (Str × List Str)) (n : Nat) :
    (sortDesc l).filter (fun p => p.2.length == n) =
      l.filter (fun p => p.2.length == n) := by
  induction l with
  | nil => rfl
  | cons x xs ih =>
    unfold sortDesc
    rw [insertByDesc_filter, ih, List.filter_cons]

/-- Claim C7: the sorted log is a permutation of the pre-sort log, ordered
by descending cluster count; the sort is stable — for every count value the
accounts with that count appear in their original iteration order — and the
reported total is the sum of the per-account cluster counts over all
accounts of the snapshot. -/
theorem claim_C7 (snapshot : List (Str × List Str)) :
    (sortDesc (allUsersLog snapshot)).Perm (allUsersLog snapshot) ∧
    (sortDesc (allUsersLog snapshot)).Pairwise (fun p q => q.2.length ≤ p.2.length) ∧
    (∀ n, (sortDesc (allUsersLog snapshot)).filter (fun p => p.2.length == n) =
      (allUsersLog snapshot).filter (fun p => p.2.length == n)) ∧
    totalIps (allUsersLog snapshot) =
      (snapshot.map (fun p => (userClusters p.2).length)).sum := by
  refine ⟨sortDesc_perm _, sortDesc_sorted _, fun n => sortDesc_stable _ n, ?_⟩
  unfold totalIps allUsersLog
  rw [List.map_map]
  rfl

/-! ### Claim C9: the send loop -/

/-- Claim C9: the chunk send loop attempts every chunk — a failing send is
caught inside the loop body, so no error propagates; the loop always
completes normally (hence the enforcement pass that follows it is never
aborted) and records one outcome per chunk, in order. -/
theorem claim_C9 (send : Str → Except Str Unit) (chunks : List Str) :
    sendAllChunks send chunks =
      Except.ok (chunks.map (fun m =>
        match send m with
        | Except.ok _ => true
        | Except.error _ => false)) := by
  induction chunks with
  | nil => rfl
  | cons m ms ih =>
    unfold sendAllChunks sendChunkAttempt
    cases hs : send m <;> simp [hs, ih]

/-! ### Claim C10: report keys, skipped renderings, totals -/

/-- Claim C10: the aggregated report has exactly the snapshot's account
identifiers as keys, in order, and the returned (sorted) report is a
permutation of it, so every account — including ones with an empty cluster
list — appears in the returned report; an account with zero clusters, or
(when the show-single flag is unset) exactly one cluster, is omitted from
the rendered entries of the notification text but still present in the
returned report; and the grand total sums the cluster counts of all
snapshot accounts, including the omitted ones. -/
theorem claim_C10 (snapshot : List (Str × List Str)) (flag : Bool) :
    ((allUsersLog snapshot).map Prod.fst = snapshot.map Prod.fst) ∧
    (checkIpUsedReport snapshot).Perm (allUsersLog snapshot) ∧
    (∀ p : Str × List Str, p ∈ allUsersLog snapshot → p.2 = [] →
      p ∉ renderedEntries (checkIpUsedReport snapshot) flag ∧
      p ∈ checkIpUsedReport snapshot) ∧
    (∀ p : Str × List Str, p ∈ allUsersLog snapshot → flag = false → p.2.length = 1 →
      p ∉ renderedEntries (checkIpUsedReport snapshot) flag ∧
      p ∈ checkIpUsedReport snapshot) ∧
    totalIps (allUsersLog snapshot) =
      (snapshot.map (fun p => (userClusters p.2).length)).sum := by
  have hperm : (checkIpUsedReport snapshot).Perm (allUsersLog snapshot) :=
    sortDesc_perm _
  refine ⟨?_, hperm, ?_, ?_, ?_⟩
  · unfold allUsersLog
    rw [List.map_map]
    rfl
  · intro p hp hp2
    refine ⟨?_, hperm.mem_iff.mpr hp⟩
    intro hmem
    have hcond := (List.mem_filter.mp hmem).2
    rw [hp2] at hcond
    simp at hcond
  · intro p hp hflag hp2
    subst hflag
    refine ⟨?_, hperm.mem_iff.mpr hp⟩
    intro hmem
    have hcond := (List.mem_filter.mp hmem).2
    simp only [Bool.false_or, Bool.and_eq_true, bne_iff_ne] at hcond
    exact hcond.2 hp2
  · unfold totalIps allUsersLog
    rw [List.map_map]
    rfl

/-- Witness for C10: a snapshot whose only account has no retained IPs —
it is absent from the rendered entries but present in the returned report. -/
theorem claim_C10_witness :
    (("a".toList, ([] : List Str)) ∈ allUsersLog [("a".toList, ([] : List Str))]) ∧
    (("a".toList, ([] : List Str)) ∉
        renderedEntries (checkIpUsedReport [("a".toList, ([] : List Str))]) false ∧
      ("a".toList, ([] : List Str)) ∈ checkIpUsedReport [("a".toList, ([] : List Str))]) :=
  ⟨by decide,
   (claim_C10 [("a".toList, ([] : List Str))] false).2.2.1 _ (by decide) rfl⟩

/-! ### Claim C8: split-point selection -/

theorem scanBlank_some_spec (msg : Str) (stop : Nat) :
    ∀ (fuel i r : Nat), scanBlank msg stop i fuel = some r →
      ∃ j, i ≤ j ∧ j < stop ∧ isBoundary msg j = true ∧
        (∀ k, i ≤ k → k < j → isBoundary msg k = false) ∧ r = j + 2 := by
  intro fuel
  induction fuel with
  | zero => intro i r h; cases h
  | succ f ih =>
    intro i r h
    unfold scanBlank at h
    by_cases hi : i < stop
    · rw [if_pos hi] at h
      by_cases hb : isBoundary msg i = true
      · rw [if_pos hb] at h
        injection h with h
        exact ⟨i, le_refl i, hi, hb,
          fun k hk1 hk2 => absurd (lt_of_le_of_lt hk1 hk2) (lt_irrefl i), h.symm⟩
      · rw [if_neg hb] at h
        obtain ⟨j, hj1, hj2, hj3, hj4, hj5⟩ := ih (i + 1) r h
        refine ⟨j, by omega, hj2, hj3, ?_, hj5⟩
        intro k hk1 hk2
        by_cases hk : k = i
        · subst hk
          simpa using hb
        · exact hj4 k (by omega) hk2
    · rw [if_neg hi] at h
      cases h

theorem scanBlank_none_spec (msg : Str) (stop : Nat) :
    ∀ (fuel i : Nat), stop ≤ i + fuel → scanBlank msg stop i fuel = none →
      ∀ k, i ≤ k → k < stop → isBoundary msg k = false := by
  intro fuel
  induction fuel with
  | zero =>
    intro i hle _ k hk1 hk2
    omega
  | succ f ih =>
    intro i hle h k hk1 hk2
    unfold scanBlank at h
    by_cases hi : i < stop
    · rw [if_pos hi] at h
      by_cases hb : isBoundary msg i = true
      · rw [if_pos hb] at h
        cases h
      · rw [if_neg hb] at h
        by_cases hk : k = i
        · subst hk
          simpa using hb
        · exact ih (i + 1) (by omega) h k (by omega) hk2
    · omega

theorem findSplit_splitsAt (msg : Str) (s : Nat) :
    SplitsAt msg s (findSplit msg s) := by
  unfold findSplit
  cases h : scanBlank msg (min (s + 200) msg.length) s 200 with
  | none =>
    exact Or.inr
      ⟨scanBlank_none_spec msg _ 200 s (Nat.min_le_left _ _) h, rfl⟩
  | some r =>
    obtain ⟨j, hj1, hj2, hj3, hj4, hj5⟩ := scanBlank_some_spec msg _ 200 s r h
    exact Or.inl ⟨j, hj1, hj2, hj3, hj4, hj5⟩

/-- Claim C8: a text longer than the maximum is split into 2 chunks when it
fits in twice the maximum and into 3 chunks otherwise; each split point
starts at the even half (resp. third) position and is moved forward to just
past the first blank-line boundary found in the 200-character window, with
the original position as the fallback when the window holds no boundary;
the chunks are the stripped segments between the split points. -/
theorem claim_C8 (msg : Str) (h : MAX_MESSAGE_LENGTH < msg.length) :
    (msg.length ≤ MAX_MESSAGE_LENGTH * 2 →
      (chunkMessage msg).length = 2 ∧
      ∃ p, SplitsAt msg (msg.length / 2) p ∧
        chunkMessage msg = [stripStr (msg.take p), stripStr (msg.drop p)]) ∧
    (MAX_MESSAGE_LENGTH * 2 < msg.length →
      (chunkMessage msg).length = 3 ∧
      ∃ p1 p2, SplitsAt msg (msg.length / 3) p1 ∧
        SplitsAt msg (msg.length / 3 * 2) p2 ∧
        chunkMessage msg = [stripStr (msg.take p1),
          stripStr ((msg.drop p1).take (p2 - p1)), stripStr (msg.drop p2)]) := by
  have hn : ¬(msg.length ≤ MAX_MESSAGE_LENGTH) := by omega
  constructor
  · intro h2
    have key : chunkMessage msg =
        [stripStr (msg.take (findSplit msg (msg.length / 2))),
          stripStr (msg.drop (findSplit msg (msg.length / 2)))] := by
      unfold chunkMessage
      rw [if_neg hn, if_pos h2]
    exact ⟨by simp [key], findSplit msg (msg.length / 2),
      findSplit_splitsAt msg (msg.length / 2), key⟩
  · intro h2
    have hn2 : ¬(msg.length ≤ MAX_MESSAGE_LENGTH * 2) := by omega
    have key : chunkMessage msg =
        [stripStr (msg.take (findSplit msg (msg.length / 3))),
          stripStr ((msg.drop (findSplit msg (msg.length / 3))).take
            (findSplit msg (msg.length / 3 * 2) - findSplit msg (msg.length / 3))),
          stripStr (msg.drop (findSplit msg (msg.length / 3 * 2)))] := by
      unfold chunkMessage
      rw [if_neg hn, if_neg hn2]
    exact ⟨by simp [key], findSplit msg (msg.length / 3),
      findSplit msg (msg.length / 3 * 2),
      findSplit_splitsAt msg (msg.length / 3),
      findSplit_splitsAt msg (msg.length / 3 * 2), key⟩

/-- Witness for C8: a 3001-character text is over the maximum, fits in
twice the maximum, and is split into exactly 2 chunks. -/
theorem claim_C8_witness :
    MAX_MESSAGE_LENGTH < (List.replicate 3001 'a').length ∧
    (chunkMessage (List.replicate 3001 'a')).length = 2 :=
  ⟨by simp only [List.length_replicate, MAX_MESSAGE_LENGTH]; omega,
   ((claim_C8 (List.replicate 3001 'a')
      (by simp only [List.length_replicate, MAX_MESSAGE_LENGTH]; omega)).1
      (by simp only [List.length_replicate, MAX_MESSAGE_LENGTH]; omega)).1⟩

/-! ### Claim C4: the chunk length bound fails (code bug) -/

/-- Claim C4 fails on the code: for a snapshot with one account whose email
is 2890 characters and whose single retained IP yields one cluster, the
complete message is exactly 3000 characters, so it is sent as a single
chunk — and after the `Active Users` header is prefixed, the emitted
message is 3022 characters, exceeding `MAX_MESSAGE_LENGTH = 3000`.  (For
longer reports the violation grows without bound: the code never splits
into more than 3 parts, so thirds of a very long text exceed even the
4096-character transport limit the source comments cite.) -/
theorem claim_C4_chunk_exceeds_max :
    ∃ m ∈ checkIpUsedChunks
        [(List.replicate 2890 'u',
          ["1.2.3.4".toList, "1.2.3.4".toList, "1.2.3.4".toList])] true,
      MAX_MESSAGE_LENGTH < m.length := by
  have hclusters : userClusters
      ["1.2.3.4".toList, "1.2.3.4".toList, "1.2.3.4".toList] =
      ["1.2.3.x".toList] := by decide
  have hlog : allUsersLog
      [(List.replicate 2890 'u',
        ["1.2.3.4".toList, "1.2.3.4".toList, "1.2.3.4".toList])] =
      [(List.replicate 2890 'u', ["1.2.3.x".toList])] := by
    unfold allUsersLog
    rw [List.map_cons, List.map_nil, hclusters]
  have hM : (userMessage (List.replicate 2890 'u') ["1.2.3.x".toList]).length
      = 2955 := by
    unfold userMessage
    rw [if_pos (show (["1.2.3.x".toList] : List Str).length = 1 from rfl)]
    simp only [List.length_append, List.length_replicate, List.headI]
    norm_num
    rfl
  have hcomplete : buildComplete
      [userMessage (List.replicate 2890 'u') ["1.2.3.x".toList]] 1 =
      userMessage (List.replicate 2890 'u') ["1.2.3.x".toList] ++
        '\n' :: '\n' :: summaryMessage 1 := rfl
  have hlen : (buildComplete
      [userMessage (List.replicate 2890 'u') ["1.2.3.x".toList]] 1).length
      = 3000 := by
    rw [hcomplete]
    simp only [List.length_append, List.length_cons, hM]
    have hs1 : (summaryMessage 1).length = 43 := rfl
    rw [hs1]
  have hchunks : chunkMessage (buildComplete
      [userMessage (List.replicate 2890 'u') ["1.2.3.x".toList]] 1) =
      [buildComplete [userMessage (List.replicate 2890 'u') ["1.2.3.x".toList]] 1] := by
    unfold chunkMessage
    rw [if_pos (by rw [hlen]; norm_num [MAX_MESSAGE_LENGTH])]
  have hpipe : checkIpUsedChunks
      [(List.replicate 2890 'u',
        ["1.2.3.4".toList, "1.2.3.4".toList, "1.2.3.4".toList])] true =
      [singleHeader ++ buildComplete
        [userMessage (List.replicate 2890 'u') ["1.2.3.x".toList]] 1] := by
    unfold checkIpUsedChunks
    rw [hlog]
    show emittedMessages (chunkMessage (buildComplete
      (userMessages (sortDesc [(List.replicate 2890 'u', ["1.2.3.x".toList])]) true)
      (totalIps [(List.replicate 2890 'u', ["1.2.3.x".toList])]))) = _
    have hsort : sortDesc [(List.replicate 2890 'u', ["1.2.3.x".toList])] =
        [(List.replicate 2890 'u', ["1.2.3.x".toList])] := rfl
    have hmsgs : userMessages [(List.replicate 2890 'u', ["1.2.3.x".toList])] true =
        [userMessage (List.replicate 2890 'u') ["1.2.3.x".toList]] := rfl
    have htot : totalIps [(List.replicate 2890 'u', ["1.2.3.x".toList])] = 1 := rfl
    rw [hsort, hmsgs, htot, hchunks]
    rfl
  rw [hpipe]
  refine ⟨singleHeader ++ buildComplete
    [userMessage (List.replicate 2890 'u') ["1.2.3.x".toList]] 1,
    List.mem_singleton.mpr rfl, ?_⟩
  rw [List.length_append, hlen]
  norm_num [MAX_MESSAGE_LENGTH, singleHeader]
